import Mathlib

/-
  Verification of the Drawpile transport-core excerpts:
  * `src/src/server/ev/select.cpp` — the select(2)-based readiness multiplexer
    (`EventSelect`), modelled for the non-WIN32 configuration (where the
    `nfds_r`/`nfds_w`/`nfds_e` bookkeeping and the per-direction `std::set`s
    exist).
  * the embedded `message.h` excerpt — the `protocol::Message` envelope and the
    reference-counting `MessagePtr` handle.

  Machine integers are modelled as `Nat`/`Int`; descriptor ids as `Int` with
  the invalid-descriptor sentinel `-1` (valid descriptors are non-negative).
  Assertions in the C++ (`assert`/`Q_ASSERT`) become preconditions: operation
  sequences are only considered valid when every assertion on the path holds.
-/

/-! ## Event mask constants (from select.cpp lines 40-43) -/

/-- `fd_t` on POSIX is `int`; descriptors are modelled as integers. -/
abbrev fd_t := Int

/-- `event_invalid_fd<EventSelect>::value`: the invalid-descriptor sentinel
(`-1` on POSIX). -/
def invalid_fd : fd_t := -1

/-- `ev_t`: the event-mask type (an unsigned integer of flag bits). -/
abbrev ev_t := Nat

/-- `event_read<EventSelect>::value = 1`. -/
def event_read : ev_t := 1

/-- `event_write<EventSelect>::value = 2`. -/
def event_write : ev_t := 2

/-- `event_error<EventSelect>::value = 4`. -/
def event_error : ev_t := 4

/-- `fIsSet(x, f)`: tests whether flag `f` is set in mask `x` (the flags used
in select.cpp are single bits, so bitwise-and against zero is the test). -/
def fIsSet (x f : ev_t) : Bool := x &&& f != 0

/-- `fSet(x, f)`: sets flag `f` in mask `x` (bitwise or). -/
def fSet (x f : ev_t) : ev_t := x ||| f

/-! ## The Message envelope (message.h excerpt, lines 364-491)

`Message` carries: the `const MessageType _type` tag, the `uint8_t _contextid`,
the local-only `bool _undone` flag, and the virtual `isUndoable()` predicate
that each concrete subtype overrides (base default `false`).  The virtual
dispatch is modelled by storing the concrete subtype's `isUndoable()` answer
as the field `undoable`.  The `_refcount` field is modelled separately with
the `MessagePtr` reference-counting state machine below. -/

structure Message where
  mtype : Nat
  contextid : Nat
  undone : Bool
  undoable : Bool

/-- The constructor `Message(MessageType type, uint8_t ctx)`: initialises
`_type(type), _contextid(ctx), _undone(false)`; `undoable` records which
concrete subtype (hence which `isUndoable()` override) the object has. -/
def Message.make (t : Nat) (ctx : Nat) (undoable : Bool) : Message :=
  ⟨t, ctx, false, undoable⟩

/-- `MessageType Message::type() const { return _type; }` -/
def Message.type (m : Message) : Nat := m.mtype

/-- `uint8_t Message::contextId() const { return _contextid; }` -/
def Message.contextId (m : Message) : Nat := m.contextid

/-- `void Message::setContextId(uint8_t userid) { _contextid = userid; }` -/
def Message.setContextId (userid : Nat) (m : Message) : Message :=
  { m with contextid := userid }

/-- `bool Message::isUndone() const { return _undone; }` -/
def Message.isUndone (m : Message) : Bool := m.undone

/-- `virtual bool Message::isUndoable() const` (base default `false`; concrete
subtypes may override to `true`). -/
def Message.isUndoable (m : Message) : Bool := m.undoable

/-- `void Message::setUndone(bool undone) { if(isUndoable()) _undone = undone; }` -/
def Message.setUndone (u : Bool) (m : Message) : Message :=
  if m.isUndoable then { m with undone := u } else m

/-- `bool Message::isCommand() const { return _type >= MSG_CANVAS_RESIZE; }`
with `MSG_CANVAS_RESIZE = 128`. -/
def Message.isCommand (m : Message) : Bool := 128 ≤ m.mtype

/-! ## EventSelect::timeout (select.cpp lines 284-299) -/

/-- `EventSelect::timeout(uint msecs)`: returns the stored
`(_timeout.tv_sec, _timeout.tv_usec)` pair.  Source:
`if (msecs > 1000) { tv_sec = msecs/1000; msecs -= tv_sec*1000; } else
tv_sec = 0; tv_usec = msecs * 1000;` -/
def timeout (msecs : Nat) : Nat × Nat :=
  if 1000 < msecs then
    let sec := msecs / 1000
    let rest := msecs - sec * 1000
    (sec, rest * 1000)
  else
    (0, msecs * 1000)

/-! ## EventSelect::wait return value (select.cpp lines 70-129)

`wait` copies the interest sets, calls `select(2)` and switches on its return
value.  The outcome of the underlying `select` call is an external input,
modelled by `SelectOutcome`:

* `ready tr tw te`: `select` succeeded; `tr`/`tw`/`te` are the descriptors
  left set in the copied read/write/error sets.  POSIX specifies the return
  value of `select` as the *total number of bits set across the three result
  sets* — a descriptor ready in two directions is counted twice.
* `fail errno`: `select` returned `-1` with the given `errno`.

On `-1` the code stores `errno`, returns `0` if it is `EINTR`, and otherwise
(after asserting the errno is none of `EBADF`/`ENOTSOCK`/`EINVAL`/`EFAULT`)
falls through and returns `nfds = -1`. -/

inductive SelectOutcome where
  | ready (tr tw te : Finset fd_t)
  | fail (errno : Nat)

/-- Linux errno values used by the assertions and the `EINTR` check in
`wait`; only their mutual distinctness matters. -/
def EINTR : Nat := 4

/-- errno `EBADF` (asserted impossible in `wait`). -/
def EBADF : Nat := 9

/-- errno `ENOTSOCK` (asserted impossible in `wait`). -/
def ENOTSOCK : Nat := 88

/-- errno `EINVAL` (asserted impossible in `wait`). -/
def EINVAL : Nat := 22

/-- errno `EFAULT` (asserted impossible in `wait`). -/
def EFAULT : Nat := 14

/-- The value `EventSelect::wait()` returns, as a function of the underlying
`select` call's outcome (see `SelectOutcome`). -/
def waitReturn : SelectOutcome → Int
  | .ready tr tw te => ((tr.card + tw.card + te.card : Nat) : Int)
  | .fail e => if e = EINTR then 0 else -1

/-- The value stored in the `error` member by `wait` (set only on failure,
before the `EINTR` check). -/
def waitError : SelectOutcome → Option Nat
  | .ready _ _ _ => none
  | .fail e => some e

/-! ## MessagePtr reference counting (message.h excerpt, lines 501-546)

`MessagePtr` manages `Message::_refcount` by hand:

* the adopting constructor `MessagePtr(Message *msg)` asserts
  `_refcount == 0` and increments it to 1 (adopting a deleted envelope is a
  use-after-free, so adoption also requires the envelope not to have been
  freed);
* the copy constructor increments the count (copying from a live handle, so
  the count is positive);
* the destructor asserts `_refcount > 0`, decrements, and
  `delete`s the envelope exactly when the count reaches 0.  The
  "release old envelope" half of `operator=` runs the identical
  decrement-and-maybe-delete code, so reassignment-away is the same step.

The state tracked per envelope is its reference count and how many times it
has been `delete`d. -/

structure RcState where
  rc : Nat
  freed : Nat
deriving DecidableEq

/-- A freshly constructed envelope: `_refcount(0)`, never deleted. -/
def RcState.fresh : RcState := ⟨0, 0⟩

/-- The handle operations affecting one envelope's reference count. -/
inductive RcOp where
  | adopt
  | copy
  | destroy
deriving DecidableEq

/-- One handle operation on an envelope's state; `none` when the operation's
precondition (a `Q_ASSERT`, or the existence of the object it acts on)
fails. -/
def rcStep : RcOp → RcState → Option RcState
  | .adopt, s => if s.rc = 0 ∧ s.freed = 0 then some ⟨1, s.freed⟩ else none
  | .copy, s => if 0 < s.rc then some ⟨s.rc + 1, s.freed⟩ else none
  | .destroy, s =>
      if 0 < s.rc then
        some ⟨s.rc - 1, if s.rc - 1 = 0 then s.freed + 1 else s.freed⟩
      else none

/-- Run a sequence of handle operations from a given envelope state. -/
def rcExec (ops : List RcOp) (s : RcState) : Option RcState :=
  match ops with
  | [] => some s
  | op :: rest => (rcStep op s).bind (rcExec rest)

/-! ## EventSelect registry state (select.cpp lines 46-60, 131-258)

Fields of `EventSelect` (non-WIN32): the three `fd_set`s `fds_r`/`fds_w`/
`fds_e` — each kept in lockstep with the corresponding `std::set`
(`read_set`/`write_set`/`error_set`), so one `Finset` models both — the
per-direction highest-descriptor bookkeeping `nfds_r`/`nfds_w`/`nfds_e`, and
the registry `std::map<fd_t,uint> fd_list`, modelled as an association list
strictly sorted by key (`std::map` iteration order is ascending key order). -/

@[ext]
structure EventSelect where
  fds_r : Finset fd_t
  fds_w : Finset fd_t
  fds_e : Finset fd_t
  nfds_r : fd_t
  nfds_w : fd_t
  nfds_e : fd_t
  fd_list : List (fd_t × ev_t)

/-- The constructor `EventSelect()`: `FD_ZERO` on all three sets and the
`nfds_*` fields initialised to the invalid-descriptor sentinel. -/
def EventSelect.init : EventSelect := ⟨∅, ∅, ∅, invalid_fd, invalid_fd, invalid_fd, []⟩

/-- `*(--X_set.end())` guarded by `X_set.size() > 0`, else the invalid
sentinel: the maximum of an ordered set, or `invalid_fd` when empty. -/
def setMax (s : Finset fd_t) : fd_t :=
  if h : s.Nonempty then s.max' h else invalid_fd

/-- The per-direction registration idiom of `add` (select.cpp lines 141-167):
`FD_SET(fd, &fds_X); X_set.insert(fd); if (fd > nfds_X) nfds_X = fd;` acting
on the pair (membership set, highest-descriptor bookkeeping). -/
def dirAdd (fd : fd_t) (st : Finset fd_t × fd_t) : Finset fd_t × fd_t :=
  (insert fd st.1, if st.2 < fd then fd else st.2)

/-- The per-direction deregistration idiom of `modify`/`remove` (select.cpp
lines 189-217, 233-252): `FD_CLR(fd, &fds_X); X_set.erase(fd);
if (fd == nfds_X) nfds_X = (X_set.size() > 0 ? *(--X_set.end()) :
invalid);` — the recomputation reads the set after the erase. -/
def dirClear (fd : fd_t) (st : Finset fd_t × fd_t) : Finset fd_t × fd_t :=
  let s := st.1.erase fd
  (s, if fd = st.2 then setMax s else st.2)

/-- `dirAdd` guarded by the `fIsSet(events, event_X)` test of `add`. -/
def dirAddIf (b : Bool) (fd : fd_t) (st : Finset fd_t × fd_t) : Finset fd_t × fd_t :=
  if b then dirAdd fd st else st

/-- `dirClear` guarded by the `!fIsSet(events, event_X)` test of `modify`. -/
def dirClearIf (b : Bool) (fd : fd_t) (st : Finset fd_t × fd_t) : Finset fd_t × fd_t :=
  if b then st else dirClear fd st

/-- `fd_list[fd] = events` on the sorted association list: `std::map`
subscript-assignment (insert or overwrite, keeping key order). -/
def mapAssign (fd : fd_t) (ev : ev_t) : List (fd_t × ev_t) → List (fd_t × ev_t)
  | [] => [(fd, ev)]
  | p :: rest =>
      if fd < p.1 then (fd, ev) :: p :: rest
      else if fd = p.1 then (fd, ev) :: rest
      else p :: mapAssign fd ev rest

/-- `fd_list.erase(iter)` for the entry with key `fd` (keys are unique in a
`std::map`, so filtering the key out is the erase). -/
def mapErase (fd : fd_t) (l : List (fd_t × ev_t)) : List (fd_t × ev_t) :=
  l.filter (fun p => p.1 != fd)

/-- The keys of the registry, in iteration order. -/
def mapKeys (l : List (fd_t × ev_t)) : List fd_t := l.map Prod.fst

/-- `EventSelect::add(fd, events)` (select.cpp lines 131-175): for each of the
three event bits set in `events`, register `fd` in that direction; then
`fd_list[fd] = events`.  (The asserts `fd != invalid` and `rc` — at least one
known event bit — are preconditions, tracked by `Reachable` below.) -/
def EventSelect.add (fd : fd_t) (events : ev_t) (s : EventSelect) : EventSelect :=
  let r := dirAddIf (fIsSet events event_read) fd (s.fds_r, s.nfds_r)
  let w := dirAddIf (fIsSet events event_write) fd (s.fds_w, s.nfds_w)
  let e := dirAddIf (fIsSet events event_error) fd (s.fds_e, s.nfds_e)
  { fds_r := r.1, fds_w := w.1, fds_e := e.1,
    nfds_r := r.2, nfds_w := w.2, nfds_e := e.2,
    fd_list := mapAssign fd events s.fd_list }

/-- `EventSelect::modify(fd, events)` (select.cpp lines 177-220): acts as a
wrapper — `if (events != 0) add(fd, events);` — then, for each of the three
event bits *not* set in `events`, deregisters `fd` from that direction.
`fd_list` is only touched through the `add` call. -/
def EventSelect.modify (fd : fd_t) (events : ev_t) (s : EventSelect) : EventSelect :=
  let s1 := if events ≠ 0 then s.add fd events else s
  let r := dirClearIf (fIsSet events event_read) fd (s1.fds_r, s1.nfds_r)
  let w := dirClearIf (fIsSet events event_write) fd (s1.fds_w, s1.nfds_w)
  let e := dirClearIf (fIsSet events event_error) fd (s1.fds_e, s1.nfds_e)
  { fds_r := r.1, fds_w := w.1, fds_e := e.1,
    nfds_r := r.2, nfds_w := w.2, nfds_e := e.2,
    fd_list := s1.fd_list }

/-- `EventSelect::remove(fd)` (select.cpp lines 222-258): deregisters `fd`
from all three directions unconditionally, erases the `fd_list` entry and
resets the iteration cursor.  (The asserts `fd != invalid` and
`iter != fd_list.end()` are preconditions, tracked by `Reachable`.) -/
def EventSelect.remove (fd : fd_t) (s : EventSelect) : EventSelect :=
  let r := dirClear fd (s.fds_r, s.nfds_r)
  let w := dirClear fd (s.fds_w, s.nfds_w)
  let e := dirClear fd (s.fds_e, s.nfds_e)
  { fds_r := r.1, fds_w := w.1, fds_e := e.1,
    nfds_r := r.2, nfds_w := w.2, nfds_e := e.2,
    fd_list := mapErase fd s.fd_list }

/-- States reachable from a fresh `EventSelect` by `add`/`modify`/`remove`
calls whose assertions hold: descriptors are valid (non-negative, hence not
the `-1` sentinel); `add` requires at least one known event bit (its
`assert(rc)`); `modify` with a non-zero mask calls `add`, so inherits that
requirement; `remove` requires the descriptor to be registered
(`assert(iter != fd_list.end())`). -/
inductive Reachable : EventSelect → Prop
  | init : Reachable EventSelect.init
  | add {s : EventSelect} {fd : fd_t} {ev : ev_t} :
      Reachable s → 0 ≤ fd → ev &&& 7 ≠ 0 → Reachable (s.add fd ev)
  | modify {s : EventSelect} {fd : fd_t} {ev : ev_t} :
      Reachable s → 0 ≤ fd → (ev ≠ 0 → ev &&& 7 ≠ 0) → Reachable (s.modify fd ev)
  | remove {s : EventSelect} {fd : fd_t} :
      Reachable s → 0 ≤ fd → fd ∈ mapKeys s.fd_list → Reachable (s.remove fd)

/-! ## getEvent iteration (select.cpp lines 260-282)

After a `wait` returning a positive count, `fd_iter` stands at
`fd_list.begin()` and the satisfied sets are the copies `t_fds_r`/`t_fds_w`/
`t_fds_e` filled in by `select`.  Each `getEvent` call advances the cursor to
the next registry entry whose satisfied mask is non-empty, building that mask
with `fSet` from the three `FD_ISSET` tests, and returns `false` when the
cursor reaches the end. -/

/-- The satisfied event mask `getEvent` computes for descriptor `fd`:
`events = 0; if (FD_ISSET(fd, &t_fds_r)) fSet(events, event_read); ...`. -/
def evMask (tr tw te : Finset fd_t) (fd : fd_t) : ev_t :=
  fSet (fSet (fSet 0 (if fd ∈ tr then event_read else 0))
    (if fd ∈ tw then event_write else 0))
    (if fd ∈ te then event_error else 0)

/-- The transcript of repeated `getEvent` calls from a cursor position until
`getEvent` returns `false`: the `(fd, events)` pairs yielded, in order. -/
def getEvents (tr tw te : Finset fd_t) : List (fd_t × ev_t) → List (fd_t × ev_t)
  | [] => []
  | p :: rest =>
      let ev := evMask tr tw te p.1
      if ev ≠ 0 then (p.1, ev) :: getEvents tr tw te rest
      else getEvents tr tw te rest

/-- The state invariant maintained by `add`/`modify`/`remove`: the registry is
strictly sorted by descriptor; every registered mask has at least one known
event bit and a non-negative descriptor; each direction's interest set only
contains registered descriptors; and each `nfds_X` equals the maximum of its
direction's interest set (or the invalid sentinel when the set is empty). -/
structure WF (s : EventSelect) : Prop where
  sorted : (mapKeys s.fd_list).Sorted (· < ·)
  masks : ∀ q ∈ s.fd_list, q.2 &&& 7 ≠ 0 ∧ 0 ≤ q.1
  subR : ∀ x ∈ s.fds_r, x ∈ mapKeys s.fd_list
  subW : ∀ x ∈ s.fds_w, x ∈ mapKeys s.fd_list
  subE : ∀ x ∈ s.fds_e, x ∈ mapKeys s.fd_list
  okR : s.nfds_r = setMax s.fds_r
  okW : s.nfds_w = setMax s.fds_w
  okE : s.nfds_e = setMax s.fds_e

/-! ## Reference-counting invariant (C1) -/

/-- Once the envelope has been freed (`freed ≠ 0`, hence `rc = 0`), no further
handle operation is possible: the trace must already be over. -/
theorem rcExec_stuck {ops : List RcOp} {s s' : RcState} (h0 : s.rc = 0)
    (h1 : s.freed ≠ 0) (h : rcExec ops s = some s') : ops = [] ∧ s' = s := by
  cases ops with
  | nil => simpa [rcExec, eq_comm] using h
  | cons op rest =>
    exfalso
    cases op <;> simp [rcExec, rcStep, h0, h1] at h

/-- The inductive heart of the reference-counting argument: along any valid
trace, the count changes by exactly one per operation, and the free happens
exactly at the step where the count returns to zero. -/
theorem rcExec_spec (ops : List RcOp) :
    ∀ s0 s : RcState, (s0.freed ≠ 0 → s0.rc = 0) → rcExec ops s0 = some s →
      s.rc + ops.count .destroy = s0.rc + ops.count .adopt + ops.count .copy
      ∧ (s.freed ≠ 0 → s.rc = 0)
      ∧ s.freed ≤ s0.freed + 1
      ∧ (s.rc = 0 ∧ 0 < s0.rc + ops.count .adopt → s0.freed < s.freed)
      ∧ (s0.freed < s.freed → 0 < s0.rc + ops.count .adopt) := by
  induction ops with
  | nil =>
    intro s0 s hinv h
    simp only [rcExec, Option.some.injEq] at h
    subst h
    have n0 : ∀ x : RcOp, ([] : List RcOp).count x = 0 := fun _ => rfl
    rw [n0, n0, n0]
    refine ⟨by omega, hinv, by omega, fun hh => ?_, fun hh => ?_⟩
    · omega
    · exact absurd hh (lt_irrefl _)
  | cons op rest ih =>
    intro s0 s hinv h
    simp only [rcExec] at h
    have cAd : ∀ l : List RcOp, (RcOp.adopt :: l).count RcOp.adopt
        = l.count RcOp.adopt + 1 := fun l => List.count_cons_self _ _
    have cAc : ∀ l : List RcOp, (RcOp.adopt :: l).count RcOp.copy
        = l.count RcOp.copy := fun l => List.count_cons_of_ne (by decide) _
    have cAx : ∀ l : List RcOp, (RcOp.adopt :: l).count RcOp.destroy
        = l.count RcOp.destroy := fun l => List.count_cons_of_ne (by decide) _
    have cCd : ∀ l : List RcOp, (RcOp.copy :: l).count RcOp.adopt
        = l.count RcOp.adopt := fun l => List.count_cons_of_ne (by decide) _
    have cCc : ∀ l : List RcOp, (RcOp.copy :: l).count RcOp.copy
        = l.count RcOp.copy + 1 := fun l => List.count_cons_self _ _
    have cCx : ∀ l : List RcOp, (RcOp.copy :: l).count RcOp.destroy
        = l.count RcOp.destroy := fun l => List.count_cons_of_ne (by decide) _
    have cDd : ∀ l : List RcOp, (RcOp.destroy :: l).count RcOp.adopt
        = l.count RcOp.adopt := fun l => List.count_cons_of_ne (by decide) _
    have cDc : ∀ l : List RcOp, (RcOp.destroy :: l).count RcOp.copy
        = l.count RcOp.copy := fun l => List.count_cons_of_ne (by decide) _
    have cDx : ∀ l : List RcOp, (RcOp.destroy :: l).count RcOp.destroy
        = l.count RcOp.destroy + 1 := fun l => List.count_cons_self _ _
    cases op with
    | adopt =>
      rw [show rcStep .adopt s0 = if s0.rc = 0 ∧ s0.freed = 0 then some ⟨1, s0.freed⟩
            else none from rfl] at h
      split at h
      case isTrue hg =>
        simp only [Option.some_bind] at h
        have ih' := ih ⟨1, s0.freed⟩ s (fun hf => absurd hg.2 hf) h
        obtain ⟨a, b, c, d, e⟩ := ih'
        dsimp only at a c d e
        rw [cAd, cAc, cAx]
        refine ⟨by omega, b, by omega, fun hh => ?_, by omega⟩
        have := d ⟨hh.1, by omega⟩
        omega
      case isFalse => simp at h
    | copy =>
      rw [show rcStep .copy s0 = if 0 < s0.rc then some ⟨s0.rc + 1, s0.freed⟩
            else none from rfl] at h
      split at h
      case isTrue hg =>
        simp only [Option.some_bind] at h
        have ih' := ih ⟨s0.rc + 1, s0.freed⟩ s (fun hf => absurd (hinv hf) (by omega)) h
        obtain ⟨a, b, c, d, e⟩ := ih'
        dsimp only at a c d e
        rw [cCd, cCc, cCx]
        refine ⟨by omega, b, by omega, fun hh => ?_, by omega⟩
        have := d ⟨hh.1, by omega⟩
        omega
      case isFalse => simp at h
    | destroy =>
      rw [show rcStep .destroy s0 = if 0 < s0.rc then
            some ⟨s0.rc - 1, if s0.rc - 1 = 0 then s0.freed + 1 else s0.freed⟩
            else none from rfl] at h
      split at h
      case isTrue hg =>
        simp only [Option.some_bind] at h
        have hf0 : s0.freed = 0 := by
          by_contra hf
          exact absurd (hinv hf) (by omega)
        by_cases hz : s0.rc - 1 = 0
        · rw [if_pos hz] at h
          obtain ⟨hrest, hs⟩ := rcExec_stuck (s := ⟨s0.rc - 1, s0.freed + 1⟩) hz
            (by simp) h
          subst hrest
          have h1 : s.rc = s0.rc - 1 := by rw [hs]
          have h2 : s.freed = s0.freed + 1 := by rw [hs]
          rw [cDd, cDc, cDx]
          have n0 : ∀ x : RcOp, ([] : List RcOp).count x = 0 := fun _ => rfl
          rw [n0, n0, n0]
          exact ⟨by omega, fun _ => by omega, by omega, by omega, by omega⟩
        · rw [if_neg hz] at h
          have ih' := ih ⟨s0.rc - 1, s0.freed⟩ s (fun hf => absurd (hinv hf) (by omega)) h
          obtain ⟨a, b, c, d, e⟩ := ih'
          dsimp only at a c d e
          rw [cDd, cDc, cDx]
          refine ⟨by omega, b, by omega, fun hh => ?_, by omega⟩
          have := d ⟨hh.1, by omega⟩
          omega
      case isFalse => simp at h

/-- Claim C1: for every envelope adopted by a `MessagePtr` (adoption requiring
reference count zero) and any valid sequence of handle copies, assignments and
destructions, the count is decremented exactly once per destruction (so the
count plus the destructions always balances the adoptions plus the copies),
and the envelope is deleted exactly once — precisely when the count reaches
zero after the last handle's destruction, never before and never twice. -/
theorem claim_C1_refcount (ops : List RcOp) (s : RcState)
    (h : rcExec ops RcState.fresh = some s) :
    s.rc + ops.count .destroy = ops.count .adopt + ops.count .copy
    ∧ s.freed ≤ 1
    ∧ (s.freed = 1 ↔ s.rc = 0 ∧ 0 < ops.count .adopt) := by
  obtain ⟨a, b, c, d, e⟩ := rcExec_spec ops RcState.fresh s (fun hf => absurd rfl hf) h
  simp only [RcState.fresh] at a c d e
  refine ⟨by omega, by omega, ?_, ?_⟩
  · intro h1
    exact ⟨b (by omega), by have := e (by omega); omega⟩
  · rintro ⟨h0, h1⟩
    have := d ⟨h0, by omega⟩
    omega

/-- Witness for C1: one envelope, three handles (one adoption plus two
copies), three destructions — the count balances and the envelope is freed
exactly once, at the third destruction. -/
theorem claim_C1_witness :
    (⟨0, 1⟩ : RcState).rc
        + [RcOp.adopt, RcOp.copy, RcOp.copy, RcOp.destroy, RcOp.destroy,
            RcOp.destroy].count RcOp.destroy
      = [RcOp.adopt, RcOp.copy, RcOp.copy, RcOp.destroy, RcOp.destroy,
          RcOp.destroy].count RcOp.adopt
        + [RcOp.adopt, RcOp.copy, RcOp.copy, RcOp.destroy, RcOp.destroy,
            RcOp.destroy].count RcOp.copy
    ∧ (⟨0, 1⟩ : RcState).freed ≤ 1
    ∧ ((⟨0, 1⟩ : RcState).freed = 1 ↔ (⟨0, 1⟩ : RcState).rc = 0
        ∧ 0 < [RcOp.adopt, RcOp.copy, RcOp.copy, RcOp.destroy, RcOp.destroy,
            RcOp.destroy].count RcOp.adopt) :=
  claim_C1_refcount
    [RcOp.adopt, RcOp.copy, RcOp.copy, RcOp.destroy, RcOp.destroy, RcOp.destroy]
    ⟨0, 1⟩ (by decide)

/-! ## Error handling in wait (C5) -/

/-- Claim C5: when the underlying `select` call fails with `EINTR`, `wait`
returns zero (retryable, not an error); any other failure (other than the
errnos the code asserts impossible) is surfaced as the distinguished negative
result `-1`, distinct from the interrupted case's zero. -/
theorem claim_C5_wait_eintr :
    waitReturn (.fail EINTR) = 0
    ∧ ∀ e : Nat, e ≠ EINTR → e ≠ EBADF → e ≠ ENOTSOCK → e ≠ EINVAL → e ≠ EFAULT →
        waitReturn (.fail e) = -1 ∧ waitReturn (.fail e) < 0 := by
  refine ⟨by decide, fun e h1 _ _ _ _ => ?_⟩
  rw [show waitReturn (.fail e) = if e = EINTR then 0 else -1 from rfl, if_neg h1]
  exact ⟨rfl, by decide⟩

/-- Witness for C5 at the concrete errno 105 (`ENOBUFS`, a genuine fatal
select failure): interrupted gives zero, the other failure gives `-1 < 0`. -/
theorem claim_C5_witness :
    waitReturn (.fail EINTR) = 0
    ∧ waitReturn (.fail 105) = -1 ∧ waitReturn (.fail 105) < 0 :=
  ⟨claim_C5_wait_eintr.1,
    (claim_C5_wait_eintr.2 105 (by decide) (by decide) (by decide) (by decide)
      (by decide)).1,
    (claim_C5_wait_eintr.2 105 (by decide) (by decide) (by decide) (by decide)
      (by decide)).2⟩

/-! ## setUndone behaviour (C7) -/

/-- Claim C7: on a message whose concrete type is not undoable,
`setUndone(true)` (indeed any `setUndone`) leaves `isUndone()` false — the
setter is a no-op; on an undoable message, calling `setUndone` twice with
toggled flags returns `isUndone()` to its original value. -/
theorem claim_C7_setUndone :
    (∀ (t c : Nat) (b : Bool),
      (Message.setUndone b (Message.make t c false)).isUndone = false)
    ∧ ∀ m : Message, m.isUndoable = true →
        (Message.setUndone m.isUndone
          (Message.setUndone (!m.isUndone) m)).isUndone = m.isUndone := by
  constructor
  · intro t c b
    simp [Message.setUndone, Message.isUndoable, Message.isUndone, Message.make]
  · intro m hm
    simp [Message.setUndone, Message.isUndoable, Message.isUndone] at *
    simp [hm]

/-- Witness for C7: a non-undoable message stays not-undone under
`setUndone true`; an undoable message already marked undone is toggled off
and back on, returning to its original value. -/
theorem claim_C7_witness :
    (Message.setUndone true (Message.make 0 1 false)).isUndone = false
    ∧ (Message.setUndone (Message.isUndone ⟨1, 2, true, true⟩)
        (Message.setUndone (!(Message.isUndone ⟨1, 2, true, true⟩))
          ⟨1, 2, true, true⟩)).isUndone = Message.isUndone ⟨1, 2, true, true⟩ :=
  ⟨claim_C7_setUndone.1 0 1 true, claim_C7_setUndone.2 ⟨1, 2, true, true⟩ rfl⟩

/-! ## Envelope immutability (C8) -/

/-- Counterexample for C8: the context id *does* change through the public
interface — `setContextId` is public and mutates `_contextid`: a message
constructed with context id 1 reports context id 2 after `setContextId(2)`,
contradicting "the context id never changes for the lifetime of the
object". -/
theorem claim_C8_counterexample :
    (Message.make 0 1 false).contextId = 1
    ∧ (Message.setContextId 2 (Message.make 0 1 false)).contextId = 2 := by
  decide

/-- Claim C8 (amended): once constructed, every field other than the
local-only undone flag and the context id is immutable through the public
interface — in particular the type tag (a `const` member) never changes; the
context id, however, is mutable through the public `setContextId` setter, and
the two setters touch nothing but their own field. -/
theorem claim_C8_immutable_type :
    ∀ (m : Message) (b : Bool) (c : Nat),
      (Message.setUndone b m).type = m.type
      ∧ (Message.setContextId c m).type = m.type
      ∧ (Message.setUndone b m).contextId = m.contextId
      ∧ (Message.setUndone b m).isUndoable = m.isUndoable
      ∧ (Message.setContextId c m).isUndoable = m.isUndoable
      ∧ (Message.setContextId c m).isUndone = m.isUndone
      ∧ (Message.setContextId c m).isCommand = m.isCommand
      ∧ (Message.setUndone b m).isCommand = m.isCommand := by
  intro m b c
  by_cases hm : m.undoable <;>
    simp [Message.setUndone, Message.setContextId, Message.type, Message.contextId,
      Message.isUndoable, Message.isUndone, Message.isCommand, hm]

/-! ## timeout decomposition (C9) -/

/-- Counterexample for C9: at `msecs = 1000` the strict `msecs > 1000` test
fails, so the whole second is stored in the microseconds field: the seconds
field is 0 (not `1000 / 1000 = 1`) and the microseconds field is 1000000,
which is not strictly less than one second. -/
theorem claim_C9_counterexample :
    timeout 1000 = (0, 1000000)
    ∧ (1000 : Nat) / 1000 = 1
    ∧ ¬ (timeout 1000).2 < 1000000 := by
  decide

/-- Claim C9 (amended): for every milliseconds argument `m`, the stored
`(tv_sec, tv_usec)` pair represents exactly `m` milliseconds; and for every
`m` other than exactly 1000 (which lands in the zero-seconds branch of the
strict comparison and stores a full second of microseconds), the seconds
field is the whole-seconds part of `m` and the microseconds field is the
sub-second remainder converted to microseconds, strictly less than one
second. -/
theorem claim_C9_timeout (m : Nat) :
    (timeout m).1 * 1000000 + (timeout m).2 = m * 1000
    ∧ (m ≠ 1000 →
        (timeout m).1 = m / 1000
        ∧ (timeout m).2 = m % 1000 * 1000
        ∧ (timeout m).2 < 1000000) := by
  unfold timeout
  split <;> dsimp only <;> exact ⟨by omega, fun h => ⟨by omega, by omega, by omega⟩⟩

/-- Witness for C9 at `m = 2500`: the pair is `(2, 500000)`, exactly
2500 milliseconds, with the documented decomposition. -/
theorem claim_C9_witness :
    (timeout 2500).1 * 1000000 + (timeout 2500).2 = 2500 * 1000
    ∧ (timeout 2500).1 = 2500 / 1000
    ∧ (timeout 2500).2 = 2500 % 1000 * 1000
    ∧ (timeout 2500).2 < 1000000 :=
  ⟨(claim_C9_timeout 2500).1, (claim_C9_timeout 2500).2 (by decide)⟩
/-! ## Lemmas about setMax and the per-direction update idioms -/

theorem setMax_empty : setMax ∅ = invalid_fd := by
  rw [setMax, dif_neg]
  exact Finset.not_nonempty_empty

theorem setMax_mem_or (s : Finset fd_t) : setMax s ∈ s ∨ setMax s = invalid_fd := by
  rw [setMax]
  split
  case isTrue h => exact Or.inl (s.max'_mem h)
  case isFalse => exact Or.inr rfl

theorem setMax_insert (fd : fd_t) (s : Finset fd_t) (hfd : 0 ≤ fd) :
    setMax (insert fd s) = max fd (setMax s) := by
  rcases s.eq_empty_or_nonempty with he | hne
  · subst he
    rw [setMax, setMax, dif_pos (Finset.insert_nonempty fd ∅),
      dif_neg Finset.not_nonempty_empty]
    rw [show (insert fd (∅ : Finset fd_t)).max' (Finset.insert_nonempty fd ∅)
        = fd from Finset.max'_singleton fd]
    have hle : invalid_fd ≤ fd := le_trans (by norm_num [invalid_fd]) hfd
    exact (max_eq_left hle).symm
  · rw [setMax, setMax, dif_pos (Finset.insert_nonempty fd s), dif_pos hne,
      Finset.max'_insert fd s hne]
    exact max_comm _ _

theorem setMax_erase_of_ne (fd : fd_t) (s : Finset fd_t) (h : fd ≠ setMax s) :
    setMax (s.erase fd) = setMax s := by
  by_cases hm : fd ∈ s
  · have hne : s.Nonempty := ⟨fd, hm⟩
    have hmax : setMax s ∈ s := by
      rw [setMax, dif_pos hne]
      exact s.max'_mem hne
    have hmem : setMax s ∈ s.erase fd := Finset.mem_erase.mpr ⟨Ne.symm h, hmax⟩
    have hne' : (s.erase fd).Nonempty := ⟨_, hmem⟩
    have hmem' : s.max' hne ∈ s.erase fd := by
      rw [setMax, dif_pos hne] at hmem
      exact hmem
    rw [setMax, setMax, dif_pos hne', dif_pos hne]
    apply le_antisymm
    · exact Finset.max'_subset hne' (s.erase_subset fd)
    · exact Finset.le_max' _ _ hmem'
  · rw [Finset.erase_eq_of_not_mem hm]

theorem dirAdd_snd (fd : fd_t) (st : Finset fd_t × fd_t) (hok : st.2 = setMax st.1)
    (hfd : 0 ≤ fd) : (dirAdd fd st).2 = setMax (dirAdd fd st).1 := by
  show (if st.2 < fd then fd else st.2) = setMax (insert fd st.1)
  rw [setMax_insert fd st.1 hfd, ← hok]
  rcases lt_or_le st.2 fd with h | h
  · rw [if_pos h]
    exact (max_eq_left h.le).symm
  · rw [if_neg (not_lt.mpr h)]
    exact (max_eq_right h).symm

theorem dirClear_snd (fd : fd_t) (st : Finset fd_t × fd_t) (hok : st.2 = setMax st.1) :
    (dirClear fd st).2 = setMax (dirClear fd st).1 := by
  show (if fd = st.2 then setMax (st.1.erase fd) else st.2) = setMax (st.1.erase fd)
  by_cases h : fd = st.2
  · rw [if_pos h]
  · rw [if_neg h, hok]
    exact (setMax_erase_of_ne fd st.1 (by rw [← hok]; exact h)).symm

theorem dirClear_of_not_mem (fd : fd_t) (st : Finset fd_t × fd_t) (hmem : fd ∉ st.1)
    (hne : fd ≠ st.2) : dirClear fd st = st := by
  show (st.1.erase fd, if fd = st.2 then setMax (st.1.erase fd) else st.2) = st
  rw [Finset.erase_eq_of_not_mem hmem, if_neg hne]

theorem dirAddIf_snd (b : Bool) (fd : fd_t) (st : Finset fd_t × fd_t)
    (hok : st.2 = setMax st.1) (hfd : 0 ≤ fd) :
    (dirAddIf b fd st).2 = setMax (dirAddIf b fd st).1 := by
  cases b
  · exact hok
  · exact dirAdd_snd fd st hok hfd

theorem dirClearIf_snd (b : Bool) (fd : fd_t) (st : Finset fd_t × fd_t)
    (hok : st.2 = setMax st.1) :
    (dirClearIf b fd st).2 = setMax (dirClearIf b fd st).1 := by
  cases b
  · exact dirClear_snd fd st hok
  · exact hok

theorem dirClearIf_id (b : Bool) (fd : fd_t) (st : Finset fd_t × fd_t)
    (hmem : fd ∉ st.1) (hne : fd ≠ st.2) : dirClearIf b fd st = st := by
  cases b
  · exact dirClear_of_not_mem fd st hmem hne
  · rfl

theorem mem_dirAddIf {b : Bool} {fd x : fd_t} {st : Finset fd_t × fd_t} :
    x ∈ (dirAddIf b fd st).1 → x = fd ∨ x ∈ st.1 := by
  cases b
  · exact fun hx => Or.inr hx
  · exact fun hx => Finset.mem_insert.mp hx

theorem mem_dirClearIf {b : Bool} {fd x : fd_t} {st : Finset fd_t × fd_t} :
    x ∈ (dirClearIf b fd st).1 → x ∈ st.1 := by
  cases b
  · exact fun hx => Finset.mem_of_mem_erase hx
  · exact fun hx => hx

/-! ## Lemmas about the sorted association list -/

theorem mem_mapKeys_mapAssign (fd : fd_t) (ev : ev_t) (x : fd_t) :
    ∀ l : List (fd_t × ev_t), x ∈ mapKeys (mapAssign fd ev l) ↔ x = fd ∨ x ∈ mapKeys l := by
  intro l
  induction l with
  | nil => simp [mapAssign, mapKeys]
  | cons p rest ih =>
    rw [mapAssign]
    by_cases h1 : fd < p.1
    · rw [if_pos h1]
      simp only [mapKeys, List.map_cons, List.mem_cons]
    · rw [if_neg h1]
      by_cases h2 : fd = p.1
      · rw [if_pos h2]
        simp only [mapKeys, List.map_cons, List.mem_cons]
        subst h2
        tauto
      · rw [if_neg h2]
        simp only [mapKeys, List.map_cons, List.mem_cons] at ih ⊢
        rw [ih]
        tauto

theorem pairs_mapAssign (fd : fd_t) (ev : ev_t) (q : fd_t × ev_t) :
    ∀ l : List (fd_t × ev_t), q ∈ mapAssign fd ev l → q = (fd, ev) ∨ q ∈ l := by
  intro l
  induction l with
  | nil =>
    intro h
    rw [show mapAssign fd ev [] = [(fd, ev)] from rfl, List.mem_singleton] at h
    exact Or.inl h
  | cons p rest ih =>
    rw [mapAssign]
    by_cases h1 : fd < p.1
    · rw [if_pos h1]
      simp only [List.mem_cons]
      tauto
    · rw [if_neg h1]
      by_cases h2 : fd = p.1
      · rw [if_pos h2]
        simp only [List.mem_cons]
        tauto
      · rw [if_neg h2]
        simp only [List.mem_cons] at ih ⊢
        tauto

theorem sorted_mapAssign (fd : fd_t) (ev : ev_t) :
    ∀ l : List (fd_t × ev_t), (mapKeys l).Sorted (· < ·) →
      (mapKeys (mapAssign fd ev l)).Sorted (· < ·) := by
  intro l
  induction l with
  | nil =>
    intro _
    simp [mapAssign, mapKeys]
  | cons p rest ih =>
    intro hs
    rw [show mapKeys (p :: rest) = p.1 :: mapKeys rest from rfl, List.sorted_cons] at hs
    obtain ⟨hall, hrest⟩ := hs
    rw [mapAssign]
    by_cases h1 : fd < p.1
    · rw [if_pos h1]
      show (fd :: p.1 :: mapKeys rest).Sorted (· < ·)
      rw [List.sorted_cons]
      refine ⟨?_, ?_⟩
      · intro b hb
        rcases List.mem_cons.mp hb with hb | hb
        · subst hb; exact h1
        · exact lt_trans h1 (hall b hb)
      · rw [List.sorted_cons]
        exact ⟨hall, hrest⟩
    · rw [if_neg h1]
      by_cases h2 : fd = p.1
      · rw [if_pos h2]
        show (fd :: mapKeys rest).Sorted (· < ·)
        rw [List.sorted_cons]
        subst h2
        exact ⟨hall, hrest⟩
      · rw [if_neg h2]
        show (p.1 :: mapKeys (mapAssign fd ev rest)).Sorted (· < ·)
        rw [List.sorted_cons]
        refine ⟨?_, ih hrest⟩
        intro b hb
        rcases (mem_mapKeys_mapAssign fd ev b rest).mp hb with hb | hb
        · subst hb
          exact lt_of_le_of_ne (not_lt.mp h1) (Ne.symm h2)
        · exact hall b hb

theorem mem_mapKeys_mapErase (fd x : fd_t) (l : List (fd_t × ev_t)) :
    x ∈ mapKeys (mapErase fd l) ↔ x ∈ mapKeys l ∧ x ≠ fd := by
  simp only [mapKeys, mapErase, List.mem_map, List.mem_filter, bne_iff_ne]
  constructor
  · rintro ⟨p, ⟨hp, hne⟩, rfl⟩
    exact ⟨⟨p, hp, rfl⟩, hne⟩
  · rintro ⟨⟨p, hp, rfl⟩, hne⟩
    exact ⟨p, ⟨hp, hne⟩, rfl⟩

theorem pairs_mapErase (fd : fd_t) (q : fd_t × ev_t) (l : List (fd_t × ev_t)) :
    q ∈ mapErase fd l → q ∈ l :=
  fun h => List.mem_of_mem_filter h

theorem sorted_mapErase (fd : fd_t) (l : List (fd_t × ev_t))
    (hs : (mapKeys l).Sorted (· < ·)) : (mapKeys (mapErase fd l)).Sorted (· < ·) := by
  have h1 : l.Pairwise (fun p q : fd_t × ev_t => p.1 < q.1) := List.pairwise_map.mp hs
  exact List.pairwise_map.mpr (h1.filter _)

/-! ## Projections of the three operations -/

theorem add_fds_r (fd : fd_t) (ev : ev_t) (s : EventSelect) :
    (s.add fd ev).fds_r = (dirAddIf (fIsSet ev event_read) fd (s.fds_r, s.nfds_r)).1 := rfl

theorem add_fds_w (fd : fd_t) (ev : ev_t) (s : EventSelect) :
    (s.add fd ev).fds_w = (dirAddIf (fIsSet ev event_write) fd (s.fds_w, s.nfds_w)).1 := rfl

theorem add_fds_e (fd : fd_t) (ev : ev_t) (s : EventSelect) :
    (s.add fd ev).fds_e = (dirAddIf (fIsSet ev event_error) fd (s.fds_e, s.nfds_e)).1 := rfl

theorem add_nfds_r (fd : fd_t) (ev : ev_t) (s : EventSelect) :
    (s.add fd ev).nfds_r = (dirAddIf (fIsSet ev event_read) fd (s.fds_r, s.nfds_r)).2 := rfl

theorem add_nfds_w (fd : fd_t) (ev : ev_t) (s : EventSelect) :
    (s.add fd ev).nfds_w = (dirAddIf (fIsSet ev event_write) fd (s.fds_w, s.nfds_w)).2 := rfl

theorem add_nfds_e (fd : fd_t) (ev : ev_t) (s : EventSelect) :
    (s.add fd ev).nfds_e = (dirAddIf (fIsSet ev event_error) fd (s.fds_e, s.nfds_e)).2 := rfl

theorem add_fd_list (fd : fd_t) (ev : ev_t) (s : EventSelect) :
    (s.add fd ev).fd_list = mapAssign fd ev s.fd_list := rfl

theorem modify_fds_r (fd : fd_t) (ev : ev_t) (s : EventSelect) :
    (s.modify fd ev).fds_r = (dirClearIf (fIsSet ev event_read) fd
      ((if ev ≠ 0 then s.add fd ev else s).fds_r,
        (if ev ≠ 0 then s.add fd ev else s).nfds_r)).1 := rfl

theorem modify_fds_w (fd : fd_t) (ev : ev_t) (s : EventSelect) :
    (s.modify fd ev).fds_w = (dirClearIf (fIsSet ev event_write) fd
      ((if ev ≠ 0 then s.add fd ev else s).fds_w,
        (if ev ≠ 0 then s.add fd ev else s).nfds_w)).1 := rfl

theorem modify_fds_e (fd : fd_t) (ev : ev_t) (s : EventSelect) :
    (s.modify fd ev).fds_e = (dirClearIf (fIsSet ev event_error) fd
      ((if ev ≠ 0 then s.add fd ev else s).fds_e,
        (if ev ≠ 0 then s.add fd ev else s).nfds_e)).1 := rfl

theorem modify_nfds_r (fd : fd_t) (ev : ev_t) (s : EventSelect) :
    (s.modify fd ev).nfds_r = (dirClearIf (fIsSet ev event_read) fd
      ((if ev ≠ 0 then s.add fd ev else s).fds_r,
        (if ev ≠ 0 then s.add fd ev else s).nfds_r)).2 := rfl

theorem modify_nfds_w (fd : fd_t) (ev : ev_t) (s : EventSelect) :
    (s.modify fd ev).nfds_w = (dirClearIf (fIsSet ev event_write) fd
      ((if ev ≠ 0 then s.add fd ev else s).fds_w,
        (if ev ≠ 0 then s.add fd ev else s).nfds_w)).2 := rfl

theorem modify_nfds_e (fd : fd_t) (ev : ev_t) (s : EventSelect) :
    (s.modify fd ev).nfds_e = (dirClearIf (fIsSet ev event_error) fd
      ((if ev ≠ 0 then s.add fd ev else s).fds_e,
        (if ev ≠ 0 then s.add fd ev else s).nfds_e)).2 := rfl

theorem modify_fd_list (fd : fd_t) (ev : ev_t) (s : EventSelect) :
    (s.modify fd ev).fd_list = (if ev ≠ 0 then s.add fd ev else s).fd_list := rfl

theorem remove_fds_r (fd : fd_t) (s : EventSelect) :
    (s.remove fd).fds_r = (dirClear fd (s.fds_r, s.nfds_r)).1 := rfl

theorem remove_fds_w (fd : fd_t) (s : EventSelect) :
    (s.remove fd).fds_w = (dirClear fd (s.fds_w, s.nfds_w)).1 := rfl

theorem remove_fds_e (fd : fd_t) (s : EventSelect) :
    (s.remove fd).fds_e = (dirClear fd (s.fds_e, s.nfds_e)).1 := rfl

theorem remove_nfds_r (fd : fd_t) (s : EventSelect) :
    (s.remove fd).nfds_r = (dirClear fd (s.fds_r, s.nfds_r)).2 := rfl

theorem remove_nfds_w (fd : fd_t) (s : EventSelect) :
    (s.remove fd).nfds_w = (dirClear fd (s.fds_w, s.nfds_w)).2 := rfl

theorem remove_nfds_e (fd : fd_t) (s : EventSelect) :
    (s.remove fd).nfds_e = (dirClear fd (s.fds_e, s.nfds_e)).2 := rfl

theorem remove_fd_list (fd : fd_t) (s : EventSelect) :
    (s.remove fd).fd_list = mapErase fd s.fd_list := rfl

/-! ## The well-formedness invariant of reachable registries -/

theorem WF_init : WF EventSelect.init := by
  constructor
  · exact List.sorted_nil
  · intro q hq
    simp [EventSelect.init] at hq
  · intro x hx
    simp [EventSelect.init] at hx
  · intro x hx
    simp [EventSelect.init] at hx
  · intro x hx
    simp [EventSelect.init] at hx
  · exact setMax_empty.symm
  · exact setMax_empty.symm
  · exact setMax_empty.symm

theorem WF_add {s : EventSelect} (h : WF s) {fd : fd_t} {ev : ev_t}
    (hfd : 0 ≤ fd) (hev : ev &&& 7 ≠ 0) : WF (s.add fd ev) := by
  constructor
  · rw [add_fd_list]
    exact sorted_mapAssign fd ev s.fd_list h.sorted
  · intro q hq
    rw [add_fd_list] at hq
    rcases pairs_mapAssign fd ev q s.fd_list hq with hq | hq
    · subst hq
      exact ⟨hev, hfd⟩
    · exact h.masks q hq
  · intro x hx
    rw [add_fds_r] at hx
    rw [add_fd_list, mem_mapKeys_mapAssign]
    rcases mem_dirAddIf hx with hx | hx
    · exact Or.inl hx
    · exact Or.inr (h.subR x hx)
  · intro x hx
    rw [add_fds_w] at hx
    rw [add_fd_list, mem_mapKeys_mapAssign]
    rcases mem_dirAddIf hx with hx | hx
    · exact Or.inl hx
    · exact Or.inr (h.subW x hx)
  · intro x hx
    rw [add_fds_e] at hx
    rw [add_fd_list, mem_mapKeys_mapAssign]
    rcases mem_dirAddIf hx with hx | hx
    · exact Or.inl hx
    · exact Or.inr (h.subE x hx)
  · rw [add_fds_r, add_nfds_r]
    exact dirAddIf_snd _ fd _ h.okR hfd
  · rw [add_fds_w, add_nfds_w]
    exact dirAddIf_snd _ fd _ h.okW hfd
  · rw [add_fds_e, add_nfds_e]
    exact dirAddIf_snd _ fd _ h.okE hfd

theorem WF_modify {s : EventSelect} (h : WF s) {fd : fd_t} {ev : ev_t}
    (hfd : 0 ≤ fd) (hev : ev ≠ 0 → ev &&& 7 ≠ 0) : WF (s.modify fd ev) := by
  have h1 : WF (if ev ≠ 0 then s.add fd ev else s) := by
    split
    case isTrue hz => exact WF_add h hfd (hev hz)
    case isFalse => exact h
  constructor
  · rw [modify_fd_list]
    exact h1.sorted
  · intro q hq
    rw [modify_fd_list] at hq
    exact h1.masks q hq
  · intro x hx
    rw [modify_fds_r] at hx
    rw [modify_fd_list]
    exact h1.subR x (mem_dirClearIf hx)
  · intro x hx
    rw [modify_fds_w] at hx
    rw [modify_fd_list]
    exact h1.subW x (mem_dirClearIf hx)
  · intro x hx
    rw [modify_fds_e] at hx
    rw [modify_fd_list]
    exact h1.subE x (mem_dirClearIf hx)
  · rw [modify_fds_r, modify_nfds_r]
    exact dirClearIf_snd _ fd _ h1.okR
  · rw [modify_fds_w, modify_nfds_w]
    exact dirClearIf_snd _ fd _ h1.okW
  · rw [modify_fds_e, modify_nfds_e]
    exact dirClearIf_snd _ fd _ h1.okE

theorem WF_remove {s : EventSelect} (h : WF s) {fd : fd_t} : WF (s.remove fd) := by
  constructor
  · rw [remove_fd_list]
    exact sorted_mapErase fd s.fd_list h.sorted
  · intro q hq
    rw [remove_fd_list] at hq
    exact h.masks q (pairs_mapErase fd q s.fd_list hq)
  · intro x hx
    rw [remove_fds_r] at hx
    rw [remove_fd_list, mem_mapKeys_mapErase]
    have hx' := Finset.mem_erase.mp hx
    exact ⟨h.subR x hx'.2, hx'.1⟩
  · intro x hx
    rw [remove_fds_w] at hx
    rw [remove_fd_list, mem_mapKeys_mapErase]
    have hx' := Finset.mem_erase.mp hx
    exact ⟨h.subW x hx'.2, hx'.1⟩
  · intro x hx
    rw [remove_fds_e] at hx
    rw [remove_fd_list, mem_mapKeys_mapErase]
    have hx' := Finset.mem_erase.mp hx
    exact ⟨h.subE x hx'.2, hx'.1⟩
  · rw [remove_fds_r, remove_nfds_r]
    exact dirClear_snd fd _ h.okR
  · rw [remove_fds_w, remove_nfds_w]
    exact dirClear_snd fd _ h.okW
  · rw [remove_fds_e, remove_nfds_e]
    exact dirClear_snd fd _ h.okE

/-- Every reachable registry state is well-formed. -/
theorem Reachable.wf {s : EventSelect} (h : Reachable s) : WF s := by
  induction h with
  | init => exact WF_init
  | add _ hfd hev ih => exact WF_add ih hfd hev
  | modify _ hfd hev ih => exact WF_modify ih hfd hev
  | remove _ hfd _ ih => exact WF_remove ih

theorem dirAddIf_true (fd : fd_t) (st : Finset fd_t × fd_t) :
    dirAddIf true fd st = dirAdd fd st := rfl

theorem dirAddIf_false (fd : fd_t) (st : Finset fd_t × fd_t) :
    dirAddIf false fd st = st := rfl

theorem dirClearIf_true (fd : fd_t) (st : Finset fd_t × fd_t) :
    dirClearIf true fd st = st := rfl

theorem dirClearIf_false (fd : fd_t) (st : Finset fd_t × fd_t) :
    dirClearIf false fd st = dirClear fd st := rfl

/-! ## Lemmas about the getEvent iteration -/

theorem evMask_ne_zero (tr tw te : Finset fd_t) (fd : fd_t) :
    evMask tr tw te fd ≠ 0 ↔ (fd ∈ tr ∨ fd ∈ tw ∨ fd ∈ te) := by
  by_cases h1 : fd ∈ tr <;> by_cases h2 : fd ∈ tw <;> by_cases h3 : fd ∈ te <;>
      simp only [evMask, fSet, event_read, event_write, event_error, h1, h2, h3,
        if_true, if_false] <;>
    simp [h1, h2, h3]

theorem getEvents_fst (tr tw te : Finset fd_t) :
    ∀ l : List (fd_t × ev_t), (getEvents tr tw te l).map Prod.fst
      = (mapKeys l).filter (fun fd => evMask tr tw te fd != 0) := by
  intro l
  induction l with
  | nil => rfl
  | cons p rest ih =>
    show (if evMask tr tw te p.1 ≠ 0 then (p.1, evMask tr tw te p.1)
        :: getEvents tr tw te rest else getEvents tr tw te rest).map Prod.fst
      = (p.1 :: mapKeys rest).filter (fun fd => evMask tr tw te fd != 0)
    by_cases h : evMask tr tw te p.1 ≠ 0
    · rw [if_pos h, List.filter_cons, if_pos (by simpa using h), List.map_cons, ih]
    · rw [if_neg h, List.filter_cons, if_neg (by simpa using h)]
      exact ih

/-! ## Claims about the registry and the iteration (C2, C3, C4, C6, C10) -/

/-- Counterexample for C2: with descriptor 5 registered for read and write and
ready in both directions, `select` (whose return value is the total number of
bits set across the three result sets) makes `wait` return 2, yet the
`getEvent` iteration yields descriptor 5 only once — one non-empty-mask yield,
not 2. -/
theorem claim_C2_counterexample :
    ({5} : Finset fd_t) ⊆ (EventSelect.init.add 5 3).fds_r
    ∧ ({5} : Finset fd_t) ⊆ (EventSelect.init.add 5 3).fds_w
    ∧ waitReturn (.ready {5} {5} ∅) = 2
    ∧ (getEvents {5} {5} ∅ (EventSelect.init.add 5 3).fd_list).length = 1 := by
  decide

/-- Claim C2 (amended): after a `wait` whose underlying `select` reports the
satisfied sets `tr`/`tw`/`te` (subsets of the registered interest sets), the
`getEvent` iteration yields each descriptor with a non-empty satisfied mask
exactly once — no duplicates, and a descriptor is yielded iff it is ready in
some direction — so the number of non-empty-mask yields equals the number of
*distinct* ready descriptors; this equals the value `wait` returned exactly
when no descriptor is ready in more than one direction (`wait` returns the
per-direction total, counting such a descriptor once per direction). -/
theorem claim_C2_yields (s : EventSelect) (h : Reachable s) (tr tw te : Finset fd_t)
    (htr : tr ⊆ s.fds_r) (htw : tw ⊆ s.fds_w) (hte : te ⊆ s.fds_e) :
    ((getEvents tr tw te s.fd_list).map Prod.fst).Nodup
    ∧ (∀ fd, fd ∈ (getEvents tr tw te s.fd_list).map Prod.fst ↔ fd ∈ tr ∪ tw ∪ te)
    ∧ (getEvents tr tw te s.fd_list).length = (tr ∪ tw ∪ te).card
    ∧ (Disjoint tr tw → Disjoint tr te → Disjoint tw te →
        waitReturn (.ready tr tw te) = ((getEvents tr tw te s.fd_list).length : Int)) := by
  have hwf := h.wf
  have hfst := getEvents_fst tr tw te s.fd_list
  have hnd : ((getEvents tr tw te s.fd_list).map Prod.fst).Nodup := by
    rw [hfst]
    exact hwf.sorted.nodup.filter _
  have hmem : ∀ fd : fd_t,
      fd ∈ (getEvents tr tw te s.fd_list).map Prod.fst ↔ fd ∈ tr ∪ tw ∪ te := by
    intro fd
    rw [hfst, List.mem_filter]
    constructor
    · rintro ⟨-, hb⟩
      have h1 := (evMask_ne_zero tr tw te fd).mp (by simpa using hb)
      simp only [Finset.mem_union]
      tauto
    · intro hu
      have h1 : fd ∈ tr ∨ fd ∈ tw ∨ fd ∈ te := by
        simpa only [Finset.mem_union, or_assoc] using hu
      refine ⟨?_, by simpa using (evMask_ne_zero tr tw te fd).mpr h1⟩
      rcases h1 with h1 | h1 | h1
      · exact hwf.subR fd (htr h1)
      · exact hwf.subW fd (htw h1)
      · exact hwf.subE fd (hte h1)
  have hlen : (getEvents tr tw te s.fd_list).length = (tr ∪ tw ∪ te).card := by
    have hfin : ((getEvents tr tw te s.fd_list).map Prod.fst).toFinset = tr ∪ tw ∪ te := by
      apply Finset.ext
      intro x
      rw [List.mem_toFinset]
      exact hmem x
    calc (getEvents tr tw te s.fd_list).length
        = ((getEvents tr tw te s.fd_list).map Prod.fst).length :=
          (List.length_map _ _).symm
      _ = ((getEvents tr tw te s.fd_list).map Prod.fst).toFinset.card :=
          (List.toFinset_card_of_nodup hnd).symm
      _ = (tr ∪ tw ∪ te).card := by rw [hfin]
  refine ⟨hnd, hmem, hlen, fun d1 d2 d3 => ?_⟩
  have hu : (tr ∪ tw ∪ te).card = tr.card + tw.card + te.card := by
    rw [Finset.card_union_of_disjoint (Finset.disjoint_union_left.mpr ⟨d2, d3⟩),
      Finset.card_union_of_disjoint d1]
  rw [show waitReturn (.ready tr tw te) = ((tr.card + tw.card + te.card : Nat) : Int)
    from rfl]
  rw [hlen, hu]

/-- Witness for C2 (amended): registry built by `add(5, read|write)` then
`add(9, read)`; both descriptors ready for read only (disjointly) — each is
yielded exactly once and the yield count matches `wait`'s return. -/
theorem claim_C2_witness :
    ((getEvents {5, 9} ∅ ∅ ((EventSelect.init.add 5 3).add 9 1).fd_list).map
      Prod.fst).Nodup
    ∧ (∀ fd, fd ∈ (getEvents {5, 9} ∅ ∅
        ((EventSelect.init.add 5 3).add 9 1).fd_list).map Prod.fst
        ↔ fd ∈ ({5, 9} : Finset fd_t) ∪ ∅ ∪ ∅)
    ∧ (getEvents {5, 9} ∅ ∅ ((EventSelect.init.add 5 3).add 9 1).fd_list).length
        = (({5, 9} : Finset fd_t) ∪ ∅ ∪ ∅).card
    ∧ (Disjoint ({5, 9} : Finset fd_t) ∅ → Disjoint ({5, 9} : Finset fd_t) ∅ →
        Disjoint (∅ : Finset fd_t) ∅ →
        waitReturn (.ready {5, 9} ∅ ∅)
          = ((getEvents {5, 9} ∅ ∅
              ((EventSelect.init.add 5 3).add 9 1).fd_list).length : Int)) :=
  claim_C2_yields ((EventSelect.init.add 5 3).add 9 1)
    (Reachable.add (Reachable.add Reachable.init (by decide) (by decide))
      (by decide) (by decide))
    {5, 9} ∅ ∅ (by decide) (by decide) (by decide)

/-- Counterexample for C3: descriptor 9 is registered (inserted) before
descriptor 5, yet when both are ready the iteration yields 5 before 9: the
registry is a `std::map` iterated in ascending key order, not in insertion
order. -/
theorem claim_C3_counterexample :
    ((EventSelect.init.add 9 1).add 5 1).fd_list = [(5, 1), (9, 1)]
    ∧ (getEvents {5, 9} ∅ ∅ ((EventSelect.init.add 9 1).add 5 1).fd_list).map
        Prod.fst = [5, 9] := by
  decide

/-- Claim C3 (amended): within one wait cycle, `getEvent` yields the ready
descriptors in strictly ascending descriptor order — the registry's
`std::map` key order — which coincides with registration order only when
descriptors happen to be registered in ascending order (as in the spec's
5-then-9 scenario). -/
theorem claim_C3_order (s : EventSelect) (h : Reachable s) (tr tw te : Finset fd_t) :
    ((getEvents tr tw te s.fd_list).map Prod.fst).Sorted (· < ·) := by
  rw [getEvents_fst tr tw te s.fd_list]
  exact h.wf.sorted.filter _

/-- Witness for C3 (amended): with 9 registered before 5 and both ready, the
yield order is the ascending [5, 9]. -/
theorem claim_C3_witness :
    ((getEvents {5, 9} ∅ ∅ ((EventSelect.init.add 9 1).add 5 1).fd_list).map
      Prod.fst).Sorted (· < ·) :=
  claim_C3_order ((EventSelect.init.add 9 1).add 5 1)
    (Reachable.add (Reachable.add Reachable.init (by decide) (by decide))
      (by decide) (by decide)) {5, 9} ∅ ∅

/-- Counterexample for C4: after `add(5, read)` followed by `modify(5, 0)`,
the descriptor is cleared from every per-direction interest set, but its
registry (`fd_list`) entry is *not* removed — it persists with its stale
previous mask, contradicting "a modify that updates a registered descriptor's
interest to the zero mask removes that descriptor's registry entry"
(`modify` only touches `fd_list` through `add`, which it skips when the mask
is zero). -/
theorem claim_C4_counterexample :
    ((EventSelect.init.add 5 1).modify 5 0).fd_list = [(5, 1)]
    ∧ ((EventSelect.init.add 5 1).modify 5 0).fds_r = ∅
    ∧ ((EventSelect.init.add 5 1).modify 5 0).fds_w = ∅
    ∧ ((EventSelect.init.add 5 1).modify 5 0).fds_e = ∅ := by
  decide

/-- Claim C4 (amended): for all reachable operation sequences the registry
never contains an entry whose stored interest mask is zero (entries are only
ever written by `add`, which requires a mask with at least one known event
bit); however, a `modify` with the zero mask does not remove the registry
entry — it leaves `fd_list` entirely unchanged (only the per-direction
interest sets are cleared), the entry persisting until `remove`. -/
theorem claim_C4_registry (s : EventSelect) (h : Reachable s) :
    (∀ q ∈ s.fd_list, q.2 ≠ 0)
    ∧ ∀ (t : EventSelect) (fd : fd_t), (t.modify fd 0).fd_list = t.fd_list := by
  constructor
  · intro q hq h0
    have := (h.wf.masks q hq).1
    rw [h0] at this
    exact this rfl
  · intro t fd
    rw [modify_fd_list, if_neg (fun hh => hh rfl)]

/-- Witness for C4 (amended): the state reached by `add(5, read)` then
`modify(5, 0)` — every stored mask is non-zero, and a zero-mask modify leaves
the registry untouched. -/
theorem claim_C4_witness :
    (∀ q ∈ ((EventSelect.init.add 5 1).modify 5 0).fd_list, q.2 ≠ 0)
    ∧ ∀ (t : EventSelect) (fd : fd_t), (t.modify fd 0).fd_list = t.fd_list :=
  claim_C4_registry ((EventSelect.init.add 5 1).modify 5 0)
    (Reachable.modify (Reachable.add Reachable.init (by decide) (by decide))
      (by decide) (fun hh => absurd rfl hh))

/-- Claim C6: in every reachable state, each per-direction
highest-registered-descriptor value (`nfds_r`, `nfds_w`, `nfds_e`) equals the
true maximum among the descriptors currently holding interest in that
direction, or the invalid-descriptor sentinel when that direction's interest
set is empty. -/
theorem claim_C6_nfds (s : EventSelect) (h : Reachable s) :
    (s.fds_r.Nonempty → s.nfds_r ∈ s.fds_r ∧ ∀ x ∈ s.fds_r, x ≤ s.nfds_r)
    ∧ (¬ s.fds_r.Nonempty → s.nfds_r = invalid_fd)
    ∧ (s.fds_w.Nonempty → s.nfds_w ∈ s.fds_w ∧ ∀ x ∈ s.fds_w, x ≤ s.nfds_w)
    ∧ (¬ s.fds_w.Nonempty → s.nfds_w = invalid_fd)
    ∧ (s.fds_e.Nonempty → s.nfds_e ∈ s.fds_e ∧ ∀ x ∈ s.fds_e, x ≤ s.nfds_e)
    ∧ (¬ s.fds_e.Nonempty → s.nfds_e = invalid_fd) := by
  have hwf := h.wf
  have key : ∀ (t : Finset fd_t) (n : fd_t), n = setMax t →
      (t.Nonempty → n ∈ t ∧ ∀ x ∈ t, x ≤ n) ∧ (¬ t.Nonempty → n = invalid_fd) := by
    intro t n hn
    constructor
    · intro hne
      rw [hn, setMax, dif_pos hne]
      exact ⟨t.max'_mem hne, fun x hx => t.le_max' x hx⟩
    · intro hne
      rw [hn, setMax, dif_neg hne]
  obtain ⟨a1, a2⟩ := key _ _ hwf.okR
  obtain ⟨b1, b2⟩ := key _ _ hwf.okW
  obtain ⟨c1, c2⟩ := key _ _ hwf.okE
  exact ⟨a1, a2, b1, b2, c1, c2⟩

/-- Witness for C6: after `add(5, read|write)`, `add(9, read)` and
`remove(5)`, the bookkeeping values are the true per-direction maxima (9 for
read) or the sentinel (write and error sets now empty). -/
theorem claim_C6_witness :
    ((((EventSelect.init.add 5 3).add 9 1).remove 5).fds_r.Nonempty →
      (((EventSelect.init.add 5 3).add 9 1).remove 5).nfds_r
          ∈ (((EventSelect.init.add 5 3).add 9 1).remove 5).fds_r
        ∧ ∀ x ∈ (((EventSelect.init.add 5 3).add 9 1).remove 5).fds_r,
            x ≤ (((EventSelect.init.add 5 3).add 9 1).remove 5).nfds_r)
    ∧ (¬ (((EventSelect.init.add 5 3).add 9 1).remove 5).fds_r.Nonempty →
        (((EventSelect.init.add 5 3).add 9 1).remove 5).nfds_r = invalid_fd)
    ∧ ((((EventSelect.init.add 5 3).add 9 1).remove 5).fds_w.Nonempty →
        (((EventSelect.init.add 5 3).add 9 1).remove 5).nfds_w
            ∈ (((EventSelect.init.add 5 3).add 9 1).remove 5).fds_w
          ∧ ∀ x ∈ (((EventSelect.init.add 5 3).add 9 1).remove 5).fds_w,
              x ≤ (((EventSelect.init.add 5 3).add 9 1).remove 5).nfds_w)
    ∧ (¬ (((EventSelect.init.add 5 3).add 9 1).remove 5).fds_w.Nonempty →
        (((EventSelect.init.add 5 3).add 9 1).remove 5).nfds_w = invalid_fd)
    ∧ ((((EventSelect.init.add 5 3).add 9 1).remove 5).fds_e.Nonempty →
        (((EventSelect.init.add 5 3).add 9 1).remove 5).nfds_e
            ∈ (((EventSelect.init.add 5 3).add 9 1).remove 5).fds_e
          ∧ ∀ x ∈ (((EventSelect.init.add 5 3).add 9 1).remove 5).fds_e,
              x ≤ (((EventSelect.init.add 5 3).add 9 1).remove 5).nfds_e)
    ∧ (¬ (((EventSelect.init.add 5 3).add 9 1).remove 5).fds_e.Nonempty →
        (((EventSelect.init.add 5 3).add 9 1).remove 5).nfds_e = invalid_fd) :=
  claim_C6_nfds (((EventSelect.init.add 5 3).add 9 1).remove 5)
    (Reachable.remove
      (Reachable.add (Reachable.add Reachable.init (by decide) (by decide))
        (by decide) (by decide))
      (by decide) (by decide))

/-- Claim C10: calling `modify` with a non-zero mask (with at least one known
event bit, as `add`'s assertion requires) on a valid descriptor that is not
registered produces exactly the state `add` would: `modify` performs no
already-registered check and delegates to `add` whenever the mask is
non-zero, and its clear branches are no-ops on an unregistered descriptor. -/
theorem claim_C10_modify_unregistered (s : EventSelect) (h : Reachable s)
    (fd : fd_t) (ev : ev_t) (hfd : 0 ≤ fd) (hev : ev &&& 7 ≠ 0)
    (hmem : fd ∉ mapKeys s.fd_list) : s.modify fd ev = s.add fd ev := by
  have hwf := h.wf
  have hne : ev ≠ 0 := by
    intro h0
    subst h0
    exact hev rfl
  have hfr : fd ∉ s.fds_r := fun hx => hmem (hwf.subR fd hx)
  have hfw : fd ∉ s.fds_w := fun hx => hmem (hwf.subW fd hx)
  have hfe : fd ∉ s.fds_e := fun hx => hmem (hwf.subE fd hx)
  have hsent : ∀ (t : Finset fd_t) (n : fd_t), n = setMax t → fd ∉ t → fd ≠ n := by
    intro t n hn hnot hh
    rcases setMax_mem_or t with hm | hm
    · exact hnot (hh ▸ hn ▸ hm)
    · rw [hh, hn, hm] at hfd
      norm_num [invalid_fd] at hfd
  have hnr : fd ≠ s.nfds_r := hsent _ _ hwf.okR hfr
  have hnw : fd ≠ s.nfds_w := hsent _ _ hwf.okW hfw
  have hnee : fd ≠ s.nfds_e := hsent _ _ hwf.okE hfe
  have pr : dirClearIf (fIsSet ev event_read) fd ((s.add fd ev).fds_r, (s.add fd ev).nfds_r)
      = ((s.add fd ev).fds_r, (s.add fd ev).nfds_r) := by
    cases hb : fIsSet ev event_read
    · rw [dirClearIf_false, add_fds_r, add_nfds_r, hb, dirAddIf_false]
      exact dirClear_of_not_mem fd _ hfr hnr
    · rw [dirClearIf_true]
  have pw : dirClearIf (fIsSet ev event_write) fd ((s.add fd ev).fds_w, (s.add fd ev).nfds_w)
      = ((s.add fd ev).fds_w, (s.add fd ev).nfds_w) := by
    cases hb : fIsSet ev event_write
    · rw [dirClearIf_false, add_fds_w, add_nfds_w, hb, dirAddIf_false]
      exact dirClear_of_not_mem fd _ hfw hnw
    · rw [dirClearIf_true]
  have pe : dirClearIf (fIsSet ev event_error) fd ((s.add fd ev).fds_e, (s.add fd ev).nfds_e)
      = ((s.add fd ev).fds_e, (s.add fd ev).nfds_e) := by
    cases hb : fIsSet ev event_error
    · rw [dirClearIf_false, add_fds_e, add_nfds_e, hb, dirAddIf_false]
      exact dirClear_of_not_mem fd _ hfe hnee
    · rw [dirClearIf_true]
  apply EventSelect.ext
  · rw [modify_fds_r, if_pos hne, pr]
  · rw [modify_fds_w, if_pos hne, pw]
  · rw [modify_fds_e, if_pos hne, pe]
  · rw [modify_nfds_r, if_pos hne, pr]
  · rw [modify_nfds_w, if_pos hne, pw]
  · rw [modify_nfds_e, if_pos hne, pe]
  · rw [modify_fd_list, if_pos hne]

/-- Witness for C10: modifying the never-registered descriptor 9 with the
write mask on a registry holding only descriptor 5 equals adding it. -/
theorem claim_C10_witness :
    (EventSelect.init.add 5 1).modify 9 2 = (EventSelect.init.add 5 1).add 9 2 :=
  claim_C10_modify_unregistered (EventSelect.init.add 5 1)
    (Reachable.add Reachable.init (by decide) (by decide))
    9 2 (by decide) (by decide) (by decide)

